import Mathlib

/-!
Verification of the pool2 resource pool.

This file gives a shallow embedding of the pool implementation
(src/unnamed/part_000) and of the resource-request primitive
(src/lib/resource-request.js), and proves or refutes the frozen claims
about them.

Modelling conventions:

* Resources are opaque; identity is reference equality, so we model a
  resource handle as a natural number.
* The HashMap field named pool in the source stores resource keys with
  idle timestamps.  Only the key set matters for the claims treated
  here, so the embedding keeps the key list (set on a fresh key appends,
  set on a present key leaves the key set unchanged, remove erases).
* The event emitter is modelled by a list of emitted events returned by
  each operation.
* Asynchronous callbacks (the factory callback of _allocateResource, its
  acquireTimeout timer, the ping callback of _maybeAllocateResource and
  the periodic sync timer) are modelled as separate atomic steps of a
  transition system: the source runs on a single-threaded cooperative
  scheduler, so every state change happens between two such quiescent
  points.  The transition system admits every interleaving of those
  callbacks, hence is a sound over-approximation of the scheduler.
-/

namespace Pool2

/-- Opaque resource handle; identity is reference equality in the source,
so a numeric identifier suffices. -/
abbrev Rsrc := Nat

/-- Observable effects of a pool operation: events emitted on the pool
emitter and invocations of the user-supplied functions.
`errorEv` is an emit of the error event, `warn` of the warn event,
`drain` of the drain event; `teardown r` records an invocation of the
user release (graceful teardown) function on `r`; `userDestroy r`
records an invocation of the user destroy function on `r`; `fulfill q r`
records that the queued request `q` was called back with resource `r`. -/
inductive Ev where
  | errorEv : Ev
  | warn : Ev
  | drain : Ev
  | teardown (r : Rsrc) : Ev
  | userDestroy (r : Rsrc) : Ev
  | fulfill (q : Nat) (r : Rsrc) : Ev
deriving DecidableEq

/-- The configuration fields of a constructed pool that the claims need.
The constructor of part_000 guarantees `max ≥ 1` and `0 ≤ min ≤ max`
(see `mkPool` below), so natural numbers suffice.  `maxRequests`
defaults to Infinity in the source; the transition system takes the
bound as a parameter, and none of the proved invariants depend on its
value. -/
structure Config where
  min : Nat
  max : Nat
  maxRequests : Nat
deriving DecidableEq

/-- The mutable state of a pool (part_000 constructor, lines 67-75),
plus two history variables for stating the FIFO property:
`served` is the list of request identifiers whose callback has been
invoked with a resource, in invocation order, and `nextId` numbers
admitted requests in admission order.  `syncTimerOn` records whether the
interval timer installed by the constructor is still scheduled. -/
structure PoolState where
  pool : List Rsrc
  available : List Rsrc
  requests : List Nat
  served : List Nat
  nextId : Nat
  acquiring : Nat
  live : Bool
  ending : Bool
  destroyed : Bool
  syncTimerOn : Bool
deriving DecidableEq

/-- The state right after the constructor runs (part_000 lines 61-77). -/
def init0 : PoolState :=
  { pool := [], available := [], requests := [], served := [], nextId := 0,
    acquiring := 0, live := false, ending := false, destroyed := false,
    syncTimerOn := true }

/-- HashMap.set on the key set: setting a present key updates its value
only; setting a fresh key adds it. -/
def poolSet (p : List Rsrc) (r : Rsrc) : List Rsrc :=
  if r ∈ p then p else p ++ [r]

/-- Pool.prototype._ensureMinimum (part_000 lines 260-268): no-op when
ending or destroyed; otherwise computes n = min - (pool.count() +
acquiring) and, when n > 0, calls _allocateResource n times, each of
which increments acquiring by one (line 327). -/
def ensureMinFun (cfg : Config) (s : PoolState) : PoolState :=
  if s.ending || s.destroyed then s
  else if s.pool.length + s.acquiring < cfg.min then
    { s with acquiring := cfg.min - s.pool.length }
  else s

/-- Pool.prototype.release (part_000 lines 111-135): error on a
non-member, error on a resource already available, otherwise refresh the
idle timestamp (key set unchanged), unshift onto available, and emit
drain when no requests are pending. -/
def releaseFun (s : PoolState) (r : Rsrc) : PoolState × List Ev :=
  if r ∈ s.pool then
    if r ∈ s.available then (s, [Ev.errorEv])
    else
      ({ s with pool := poolSet s.pool r, available := r :: s.available },
       if s.requests.isEmpty then [Ev.drain] else [])
  else (s, [Ev.errorEv])

/-- Pool.prototype.remove (part_000 lines 158-195): splice the resource
out of available, remove it from the pool map, emit an error if it was
not a member and skipError was not passed, then invoke the user release
(graceful teardown) on it.  The disposeTimeout fallback timer is the
separate destroy step. -/
def removeFun (s : PoolState) (r : Rsrc) (skipErr : Bool) : PoolState × List Ev :=
  ({ s with available := s.available.erase r, pool := s.pool.erase r },
   (if r ∈ s.pool ∨ skipErr = true then [] else [Ev.errorEv]) ++ [Ev.teardown r])

/-- Pool.prototype.destroy (part_000 lines 138-154): splice out of
available, remove from the pool map if present, fire-and-forget the user
destroy (a throw surfaces as a warn event), then _ensureMinimum.
`userThrows` says whether the user destroy function throws. -/
def destroyFun (cfg : Config) (s : PoolState) (r : Rsrc) (userThrows : Bool) :
    PoolState × List Ev :=
  (ensureMinFun cfg { s with available := s.available.erase r, pool := s.pool.erase r },
   Ev.userDestroy r :: (if userThrows then [Ev.warn] else []))

/-- The pool.forEach(destroy) loop of _destroyPool, folded over the key
list.  The user destroy functions are assumed not to throw here; a throw
would only add warn events. -/
def killFold (cfg : Config) (l : List Rsrc) (s : PoolState) : PoolState :=
  l.foldl (fun acc r => (destroyFun cfg acc r false).1) s

/-- Pool.prototype._destroyPool (part_000 lines 400-407): set destroyed,
cancel the sync interval timer, destroy every resource in the pool map,
then clear the map.  Note: the requests queue is not touched and no
request callback is invoked. -/
def destroyPoolFun (cfg : Config) (s : PoolState) : PoolState × List Ev :=
  let s1 : PoolState := { s with destroyed := true, syncTimerOn := false }
  let s2 := killFold cfg s.pool s1
  ({ s2 with pool := [] }, s.pool.map Ev.userDestroy)

/-- The onError closure of _allocateResource (part_000 lines 331-342):
if the pool has never gone live, destroy the pool and emit a fatal error
event; otherwise do nothing observable. -/
def onErrorFun (cfg : Config) (s : PoolState) : PoolState × List Ev :=
  if s.live then (s, [])
  else
    let p := destroyPoolFun cfg s
    (p.1, Ev.errorEv :: p.2)

/-- The acquireTimeout timer handler of _allocateResource (part_000
lines 344-354): null the timer latch, decrement acquiring, run onError.
(The handler can only run while the timer latch is still set.) -/
def timerFireFun (cfg : Config) (s : PoolState) : PoolState × List Ev :=
  onErrorFun cfg { s with acquiring := s.acquiring - 1 }

/-- The factory callback of _allocateResource (part_000 lines 357-393).
`timerAlive` says whether the acquireTimeout timer latch is still set
when the callback runs, `errFlag` whether the factory reported an error.
With the latch set: clear it, decrement acquiring, then either run
onError or insert the new resource (latch live, set in the pool map,
unshift onto available, emit drain when ending with nothing pending).
With the latch already nulled: a successful late resource is routed
through remove with skipError = true; an error goes to onError. -/
def acquireCbFun (cfg : Config) (s : PoolState) (timerAlive errFlag : Bool)
    (r : Rsrc) : PoolState × List Ev :=
  if timerAlive then
    let s1 : PoolState := { s with acquiring := s.acquiring - 1 }
    if errFlag then onErrorFun cfg s1
    else
      let s2 : PoolState :=
        { s1 with live := true, pool := poolSet s1.pool r,
                  available := r :: s1.available }
      (s2, if s2.ending && s2.requests.isEmpty && (s2.acquiring == 0)
           then [Ev.drain] else [])
  else
    if errFlag then onErrorFun cfg s
    else removeFun s r true

/-- The serve path of Pool.prototype._maybeAllocateResource (part_000
lines 271-307) after a successful ping: with at least one pending
request and an available resource, shift the resource off available,
shift the request off the head of the queue and invoke its callback. -/
def dispatchServeFun (s : PoolState) : PoolState × List Ev :=
  match s.requests, s.available with
  | q :: qs, r :: av =>
      ({ s with available := av, requests := qs, served := s.served ++ [q] },
       [Ev.fulfill q r])
  | _, _ => (s, [])

/-- The failed-ping path of _maybeAllocateResource (part_000 lines
279-294): the resource that was shifted off available is removed from
the pool (graceful teardown); the head request stays queued. -/
def dispatchPingFailFun (s : PoolState) : PoolState × List Ev :=
  match s.requests, s.available with
  | _ :: _, r :: av =>
      ({ s with available := av.erase r, pool := s.pool.erase r },
       [Ev.warn, Ev.teardown r])
  | _, _ => (s, [])

/-- One atomic step of the pool, between two quiescent points of the
cooperative scheduler.  Each constructor carries the guard under which
the corresponding source fragment runs and an equation fixing the
successor state.

`allocCb` and `allocTimeout` carry the guard `0 < acquiring`: a pending
acquireTimeout timer or a not-yet-answered factory callback belongs to
an attempt that has incremented acquiring and not yet decremented it
(the per-attempt latch discipline proved in `c10_acquiring_counter`). -/
inductive Step (cfg : Config) : PoolState → PoolState → Prop where
  | acquireOk (s s' : PoolState)
      (h1 : s.destroyed = false) (h2 : s.ending = false)
      (h3 : s.requests.length < cfg.maxRequests)
      (heq : s' = { s with requests := s.requests ++ [s.nextId],
                           nextId := s.nextId + 1 }) :
      Step cfg s s'
  | serve (s s' : PoolState) (heq : s' = (dispatchServeFun s).1) :
      Step cfg s s'
  | pingFail (s s' : PoolState) (heq : s' = (dispatchPingFailFun s).1) :
      Step cfg s s'
  | alloc (s s' : PoolState)
      (h1 : s.requests ≠ []) (h2 : s.available = [])
      (h3 : s.pool.length + s.acquiring < cfg.max)
      (h4 : s.destroyed = false)
      (heq : s' = { s with acquiring := s.acquiring + 1 }) :
      Step cfg s s'
  | ensureMin (s s' : PoolState) (heq : s' = ensureMinFun cfg s) :
      Step cfg s s'
  | releaseS (s : PoolState) (r : Rsrc) (s' : PoolState)
      (heq : s' = (releaseFun s r).1) : Step cfg s s'
  | removeS (s : PoolState) (r : Rsrc) (skipErr : Bool) (s' : PoolState)
      (heq : s' = (removeFun s r skipErr).1) : Step cfg s s'
  | destroyS (s : PoolState) (r : Rsrc) (b : Bool) (s' : PoolState)
      (heq : s' = (destroyFun cfg s r b).1) : Step cfg s s'
  | allocCb (s : PoolState) (t e : Bool) (r : Rsrc) (s' : PoolState)
      (hg : t = true → 0 < s.acquiring)
      (heq : s' = (acquireCbFun cfg s t e r).1) : Step cfg s s'
  | allocTimeout (s s' : PoolState) (hg : 0 < s.acquiring)
      (heq : s' = (timerFireFun cfg s).1) : Step cfg s s'
  | endS (s s' : PoolState) (heq : s' = { s with ending := true }) :
      Step cfg s s'
  | destroyPoolS (s s' : PoolState) (heq : s' = (destroyPoolFun cfg s).1) :
      Step cfg s s'

/-- States reachable from the freshly constructed pool. -/
inductive Reachable (cfg : Config) : PoolState → Prop where
  | init : Reachable cfg init0
  | step {s s' : PoolState} (h : Reachable cfg s) (hs : Step cfg s s') :
      Reachable cfg s'

/-! ## ResourceRequest (src/lib/resource-request.js) -/

/-- ResourceRequest state: the fulfilled latch (constructor line 15). -/
structure RRState where
  fulfilled : Bool
deriving DecidableEq

/-- A call on a ResourceRequest: resolve with a resource, reject with an
error, or abort. -/
inductive RRCall where
  | resolve (r : Rsrc) : RRCall
  | reject : RRCall
  | abort : RRCall
deriving DecidableEq

/-- Observable effects of a ResourceRequest call: `cb err res` is an
invocation of the stored callback (`cb false (some r)` for a
resolution, `cb true none` for a rejection), `errEv` is an emit of the
error event on the request. -/
inductive REv where
  | cb (err : Bool) (res : Option Rsrc) : REv
  | errEv : REv
deriving DecidableEq

/-- One call on a ResourceRequest (resource-request.js lines 19-37):
resolve and reject invoke the callback and set the fulfilled latch the
first time, and emit the error event on later calls; abort merely sets
the latch (it invokes nothing). -/
def rrStep (s : RRState) : RRCall → RRState × List REv
  | RRCall.resolve r =>
      if s.fulfilled then (s, [REv.errEv])
      else ({ fulfilled := true }, [REv.cb false (some r)])
  | RRCall.reject =>
      if s.fulfilled then (s, [REv.errEv])
      else ({ fulfilled := true }, [REv.cb true none])
  | RRCall.abort => ({ fulfilled := true }, [])

/-- Run a sequence of calls on a ResourceRequest, concatenating the
observable effects. -/
def rrRun (s : RRState) : List RRCall → RRState × List REv
  | [] => (s, [])
  | c :: cs =>
      let p := rrStep s c
      let q := rrRun p.1 cs
      (q.1, p.2 ++ q.2)

/-- Number of callback invocations in a list of request effects. -/
def cbCount : List REv → Nat
  | [] => 0
  | REv.cb _ _ :: t => cbCount t + 1
  | REv.errEv :: t => cbCount t

/-! ## Constructor option handling (part_000 lines 15-78) -/

/-- The shape of a function-valued option as the constructor sees it:
absent (or falsy), a function, or present but not a function. -/
inductive FnOpt where
  | absent : FnOpt
  | fn : FnOpt
  | notFn : FnOpt
deriving DecidableEq

/-- Constructor options after the parseInt calls of lines 38-51: a
numeric field is `some v` when parseInt produced the integer `v` and
`none` when it produced NaN (option absent or not numeric). -/
structure Opts where
  acquire : FnOpt
  release : FnOpt
  destroy : FnOpt
  ping : FnOpt
  min : Option Int
  max : Option Int
  maxRequests : Option Int
  acquireTimeout : Option Int
  releaseTimeout : Option Int
  pingTimeout : Option Int
  idleTimeout : Option Int
  syncInterval : Option Int
deriving DecidableEq

/-- The errors the constructor can throw (part_000 lines 20-31). -/
inductive CtorErr where
  | acquireRequired : CtorErr
  | releaseRequired : CtorErr
  | destroyMustBeFn : CtorErr
  | pingMustBeFn : CtorErr
deriving DecidableEq

/-- The numeric configuration the constructor stores.  `maxRequests =
none` represents Infinity.  `releaseTimeout` is an Option because of the
source typo at line 54: when opts.releaseTimeout parses to a number, the
field is assigned the PARSED acquireTimeout, which can itself be NaN
(represented by `none`). -/
structure PoolCfg where
  min : Int
  max : Int
  maxRequests : Option Int
  acquireTimeout : Int
  releaseTimeout : Option Int
  pingTimeout : Int
  idleTimeout : Int
  syncInterval : Int
deriving DecidableEq

/-- The Pool constructor (part_000 lines 15-78).  It throws only for a
missing or non-function acquire or release and for a non-function
destroy or ping.  Every numeric option that is NaN or out of range is
silently replaced: max falls back to 10 unless a number at least 1, min
falls back to 0 unless a number with 0 ≤ min ≤ max, maxRequests falls
back to Infinity unless a number at least 1, and the timeouts fall back
to their defaults when NaN with no range check at all.  Line 54 of the
source assigns this.releaseTimeout from opts.acquireTimeout. -/
def mkPool (o : Opts) : Except CtorErr PoolCfg :=
  if o.acquire ≠ FnOpt.fn then Except.error CtorErr.acquireRequired
  else if o.release ≠ FnOpt.fn then Except.error CtorErr.releaseRequired
  else if o.destroy = FnOpt.notFn then Except.error CtorErr.destroyMustBeFn
  else if o.ping = FnOpt.notFn then Except.error CtorErr.pingMustBeFn
  else
    let mx : Int := match o.max with
      | some v => if 1 ≤ v then v else 10
      | none => 10
    let mn : Int := match o.min with
      | some v => if 0 ≤ v ∧ v ≤ mx then v else 0
      | none => 0
    let mreq : Option Int := match o.maxRequests with
      | some v => if 1 ≤ v then some v else none
      | none => none
    let acqT : Int := match o.acquireTimeout with
      | some v => v
      | none => 30000
    let relT : Option Int := match o.releaseTimeout with
      | some _ => o.acquireTimeout
      | none => some 30000
    let pingT : Int := match o.pingTimeout with
      | some v => v
      | none => 10000
    let idleT : Int := match o.idleTimeout with
      | some v => v
      | none => 60000
    let syncI : Int := match o.syncInterval with
      | some v => v
      | none => 10000
    Except.ok
      { min := mn, max := mx, maxRequests := mreq, acquireTimeout := acqT,
        releaseTimeout := relT, pingTimeout := pingT, idleTimeout := idleT,
        syncInterval := syncI }

/-! ## Per-attempt accounting of _allocateResource (part_000 lines
318-397) -/

/-- The per-attempt state of one _allocateResource call that passed the
destroyed guard: `timerAlive` is the timer latch (the local variable
timer, null once cleared), and `decs` is a history count of how many
times this attempt has decremented the shared acquiring counter. -/
structure Attempt where
  timerAlive : Bool
  decs : Nat
deriving DecidableEq

/-- Events that can hit one allocation attempt: its acquireTimeout timer
firing, or the factory calling back (with or without an error).  The
factory may call back any number of times, in any order relative to the
timer. -/
inductive AEv where
  | timerFire : AEv
  | factoryCb (err : Bool) : AEv
deriving DecidableEq

/-- Effect of one event on an attempt.  The timer handler (lines
344-354) nulls the latch and decrements; it can only run while the
latch is set, so with the latch cleared it is a no-op.  The factory
callback (lines 357-365) decrements exactly when the latch is still
set, clearing it; with the latch already nulled it never decrements
(a successful late resource goes to remove, an error to onError). -/
def attemptStep (a : Attempt) : AEv → Attempt
  | AEv.timerFire =>
      if a.timerAlive then { timerAlive := false, decs := a.decs + 1 } else a
  | AEv.factoryCb _ =>
      if a.timerAlive then { timerAlive := false, decs := a.decs + 1 } else a

/-- Run an attempt from its initial state: the timer latch is set when
_allocateResource returns (line 344), right after the single acquiring++
of line 327. -/
def runAttempt (evs : List AEv) : Attempt :=
  evs.foldl attemptStep { timerAlive := true, decs := 0 }

/-- Decrement counts of a list of attempts. -/
def decsList (atts : List (List AEv)) : List Nat :=
  atts.map (fun evs => (runAttempt evs).decs)

/-- The value of the shared acquiring counter after the given attempts
have each seen their events: every attempt incremented it exactly once
(line 327), and each attempt decremented it `decs` times. -/
def acquiringVal (atts : List (List AEv)) : Int :=
  (atts.length : Int) - ((decsList atts).sum : Int)

/-! ## Concrete states used by the witnesses and counterexamples -/

/-- A demonstration configuration: min 0, max 10, maxRequests 5. -/
def cfg0 : Config := { min := 0, max := 10, maxRequests := 5 }

/-- After two acquire calls: requests 0 and 1 queued. -/
def sD2 : PoolState := { init0 with requests := [0, 1], nextId := 2 }

/-- After _maybeAllocateResource starts an allocation. -/
def sD3 : PoolState := { sD2 with acquiring := 1 }

/-- After the factory calls back with resource 0. -/
def sD4 : PoolState :=
  { sD3 with acquiring := 0, live := true, pool := [0], available := [0] }

/-- After the dispatcher serves request 0 with resource 0. -/
def sD5 : PoolState :=
  { sD4 with available := [], requests := [1], served := [0] }

/-- After the consumer releases resource 0. -/
def sD6 : PoolState := { sD5 with available := [0] }

/-- After the dispatcher serves request 1 with resource 0. -/
def sD7 : PoolState :=
  { sD6 with available := [], requests := [], served := [0, 1] }

/-- A live pool owning resource 1, used by the late-resource witness. -/
def sC2 : PoolState := { init0 with pool := [1], available := [], live := true }

/-- A live pool owning resource 2 (idle), used by the destroy witness. -/
def sC9 : PoolState := { init0 with pool := [2], available := [2], live := true }

/-- A live pool with resource 7 idle and request 3 pending, used to
evaluate _destroyPool. -/
def sC5 : PoolState :=
  { init0 with pool := [7], available := [7], requests := [3], nextId := 4,
               live := true }

/-- An INITIAL-state pool (live never latched) with one allocation in
flight and one request queued, used to evaluate the initial-failure
path. -/
def sC6 : PoolState := { init0 with requests := [0], nextId := 1, acquiring := 1 }

/-- Options with min 3 greater than max 2 and both acquire and release
supplied as functions. -/
def opts7 : Opts :=
  { acquire := FnOpt.fn, release := FnOpt.fn, destroy := FnOpt.absent,
    ping := FnOpt.absent, min := some 3, max := some 2, maxRequests := none,
    acquireTimeout := none, releaseTimeout := none, pingTimeout := none,
    idleTimeout := none, syncInterval := none }

/-- Options with negative min and max. -/
def opts7neg : Opts := { opts7 with min := some (-4), max := some (-1) }

/-- The configuration part_000 actually builds from `opts7`: it does not
throw, and silently stores min 0, max 2. -/
def pc7a : PoolCfg :=
  { min := 0, max := 2, maxRequests := none, acquireTimeout := 30000,
    releaseTimeout := some 30000, pingTimeout := 10000, idleTimeout := 60000,
    syncInterval := 10000 }

/-- The configuration part_000 builds from `opts7neg`: again no throw;
both invalid bounds are silently replaced by the defaults. -/
def pc7b : PoolCfg := { pc7a with max := 10 }

/-! ## Helper lemmas -/

theorem poolSet_of_mem (p : List Rsrc) (r : Rsrc) (h : r ∈ p) :
    poolSet p r = p := by
  simp [poolSet, h]

theorem poolSet_length_le (p : List Rsrc) (r : Rsrc) :
    (poolSet p r).length ≤ p.length + 1 := by
  by_cases h : r ∈ p <;> simp [poolSet, h]

theorem erase_length_le (r : Rsrc) (p : List Rsrc) :
    (p.erase r).length ≤ p.length := by
  induction p with
  | nil => simp
  | cons a t ih =>
      simp only [List.erase_cons, List.length_cons]
      split
      · omega
      · simp only [List.length_cons]
        omega

theorem ensureMinFun_proj (cfg : Config) (s : PoolState) :
    (ensureMinFun cfg s).pool = s.pool ∧
    (ensureMinFun cfg s).available = s.available ∧
    (ensureMinFun cfg s).requests = s.requests ∧
    (ensureMinFun cfg s).served = s.served ∧
    (ensureMinFun cfg s).nextId = s.nextId ∧
    (ensureMinFun cfg s).live = s.live ∧
    (ensureMinFun cfg s).ending = s.ending ∧
    (ensureMinFun cfg s).destroyed = s.destroyed ∧
    (ensureMinFun cfg s).syncTimerOn = s.syncTimerOn := by
  unfold ensureMinFun
  split
  · simp
  · split <;> simp

theorem ensureMinFun_size (cfg : Config) (s : PoolState)
    (hmm : cfg.min ≤ cfg.max)
    (h : s.pool.length + s.acquiring ≤ cfg.max) :
    (ensureMinFun cfg s).pool.length + (ensureMinFun cfg s).acquiring ≤
      cfg.max := by
  unfold ensureMinFun
  split
  · exact h
  · split
    · rename_i hlt
      show s.pool.length + (cfg.min - s.pool.length) ≤ cfg.max
      omega
    · exact h

theorem ensureMinFun_destroyed (cfg : Config) (s : PoolState)
    (h : s.destroyed = true) : ensureMinFun cfg s = s := by
  simp [ensureMinFun, h]

theorem killFold_effect (cfg : Config) (l : List Rsrc) :
    ∀ s : PoolState, s.destroyed = true →
      (killFold cfg l s).acquiring = s.acquiring ∧
      (killFold cfg l s).requests = s.requests ∧
      (killFold cfg l s).served = s.served ∧
      (killFold cfg l s).nextId = s.nextId ∧
      (killFold cfg l s).destroyed = true ∧
      (killFold cfg l s).syncTimerOn = s.syncTimerOn ∧
      (killFold cfg l s).ending = s.ending ∧
      (killFold cfg l s).live = s.live := by
  induction l with
  | nil => intro s h; simp [killFold, h]
  | cons a t ih =>
      intro s h
      have hd : ({ s with available := s.available.erase a,
                          pool := s.pool.erase a } : PoolState).destroyed = true := h
      have hstep : (destroyFun cfg s a false).1 =
          { s with available := s.available.erase a, pool := s.pool.erase a } := by
        simp only [destroyFun]
        exact ensureMinFun_destroyed _ _ hd
      have hfold : killFold cfg (a :: t) s =
          killFold cfg t (destroyFun cfg s a false).1 := by
        simp [killFold, List.foldl_cons]
      rw [hfold, hstep]
      exact ih _ hd

theorem destroyPoolFun_effect (cfg : Config) (s : PoolState) :
    (destroyPoolFun cfg s).1.pool = [] ∧
    (destroyPoolFun cfg s).1.acquiring = s.acquiring ∧
    (destroyPoolFun cfg s).1.requests = s.requests ∧
    (destroyPoolFun cfg s).1.served = s.served ∧
    (destroyPoolFun cfg s).1.nextId = s.nextId ∧
    (destroyPoolFun cfg s).1.destroyed = true ∧
    (destroyPoolFun cfg s).1.syncTimerOn = false := by
  obtain ⟨h1, h2, h3, h4, h5, h6, h7, h8⟩ :=
    killFold_effect cfg s.pool { s with destroyed := true, syncTimerOn := false } rfl
  refine ⟨rfl, ?_, ?_, ?_, ?_, ?_, ?_⟩
  · show (killFold cfg s.pool { s with destroyed := true, syncTimerOn := false }).acquiring = s.acquiring
    simpa using h1
  · show (killFold cfg s.pool { s with destroyed := true, syncTimerOn := false }).requests = s.requests
    simpa using h2
  · show (killFold cfg s.pool { s with destroyed := true, syncTimerOn := false }).served = s.served
    simpa using h3
  · show (killFold cfg s.pool { s with destroyed := true, syncTimerOn := false }).nextId = s.nextId
    simpa using h4
  · show (killFold cfg s.pool { s with destroyed := true, syncTimerOn := false }).destroyed = true
    simpa using h5
  · show (killFold cfg s.pool { s with destroyed := true, syncTimerOn := false }).syncTimerOn = false
    simpa using h6

theorem onErrorFun_effect (cfg : Config) (s : PoolState) :
    (onErrorFun cfg s).1.pool.length ≤ s.pool.length ∧
    (onErrorFun cfg s).1.acquiring = s.acquiring ∧
    (onErrorFun cfg s).1.requests = s.requests ∧
    (onErrorFun cfg s).1.served = s.served ∧
    (onErrorFun cfg s).1.nextId = s.nextId := by
  unfold onErrorFun
  split
  · simp
  · have h := destroyPoolFun_effect cfg s
    exact ⟨by simp [h.1], h.2.1, h.2.2.1, h.2.2.2.1, h.2.2.2.2.1⟩

/-- The two pool invariants, proved together by induction over
reachability: the size bound on the resources map plus the in-flight
allocation counter, and the queue history equation that yields the FIFO
property (requests are numbered in admission order, and the served list
followed by the pending queue is always exactly the admission order). -/
theorem reach_good (cfg : Config) (s : PoolState) (hr : Reachable cfg s) :
    (cfg.min ≤ cfg.max → s.pool.length + s.acquiring ≤ cfg.max) ∧
    s.served ++ s.requests = List.range s.nextId := by
  induction hr with
  | init => exact ⟨fun _ => by simp [init0], by simp [init0]⟩
  | @step sp snew hprev hstep ih =>
      obtain ⟨ih1, ih2⟩ := ih
      cases hstep with
      | acquireOk s2 h1 h2 h3 heq =>
          subst heq
          refine ⟨fun hmm => ih1 hmm, ?_⟩
          show sp.served ++ (sp.requests ++ [sp.nextId]) = List.range (sp.nextId + 1)
          rw [List.range_succ, ← List.append_assoc, ih2]
      | serve s2 heq =>
          subst heq
          rcases hq : sp.requests with _ | ⟨q, qs⟩
          · have hd : dispatchServeFun sp = (sp, []) := by
              unfold dispatchServeFun; rw [hq]
            rw [hd]; exact ⟨ih1, ih2⟩
          · rcases ha : sp.available with _ | ⟨r, av⟩
            · have hd : dispatchServeFun sp = (sp, []) := by
                unfold dispatchServeFun; rw [hq, ha]
              rw [hd]; exact ⟨ih1, ih2⟩
            · have hd : dispatchServeFun sp =
                  ({ sp with available := av, requests := qs,
                             served := sp.served ++ [q] }, [Ev.fulfill q r]) := by
                unfold dispatchServeFun; rw [hq, ha]
              rw [hd]
              refine ⟨fun hmm => ih1 hmm, ?_⟩
              show (sp.served ++ [q]) ++ qs = List.range sp.nextId
              rw [List.append_assoc]
              simpa [hq] using ih2
      | pingFail s2 heq =>
          subst heq
          rcases hq : sp.requests with _ | ⟨q, qs⟩
          · have hd : dispatchPingFailFun sp = (sp, []) := by
              unfold dispatchPingFailFun; rw [hq]
            rw [hd]; exact ⟨ih1, ih2⟩
          · rcases ha : sp.available with _ | ⟨r, av⟩
            · have hd : dispatchPingFailFun sp = (sp, []) := by
                unfold dispatchPingFailFun; rw [hq, ha]
              rw [hd]; exact ⟨ih1, ih2⟩
            · have hd : dispatchPingFailFun sp =
                  ({ sp with available := av.erase r, pool := sp.pool.erase r },
                   [Ev.warn, Ev.teardown r]) := by
                unfold dispatchPingFailFun; rw [hq, ha]
              rw [hd]
              refine ⟨fun hmm => ?_, ?_⟩
              · show (sp.pool.erase r).length + sp.acquiring ≤ cfg.max
                have hb := erase_length_le r sp.pool
                have hc := ih1 hmm
                omega
              · show sp.served ++ sp.requests = List.range sp.nextId
                exact ih2
      | alloc s2 h1 h2 h3 h4 heq =>
          subst heq
          refine ⟨fun hmm => ?_, ?_⟩
          · show sp.pool.length + (sp.acquiring + 1) ≤ cfg.max
            omega
          · show sp.served ++ sp.requests = List.range sp.nextId
            exact ih2
      | ensureMin s2 heq =>
          subst heq
          have hp := ensureMinFun_proj cfg sp
          refine ⟨fun hmm => ensureMinFun_size cfg sp hmm (ih1 hmm), ?_⟩
          rw [hp.2.2.1, hp.2.2.2.1, hp.2.2.2.2.1]
          exact ih2
      | releaseS r s2 heq =>
          subst heq
          by_cases h1 : r ∈ sp.pool
          · by_cases h2 : r ∈ sp.available
            · have hd : (releaseFun sp r).1 = sp := by
                simp [releaseFun, h1, h2]
              rw [hd]; exact ⟨ih1, ih2⟩
            · have hd : (releaseFun sp r).1 =
                  { sp with pool := poolSet sp.pool r,
                            available := r :: sp.available } := by
                simp [releaseFun, h1, h2]
              rw [hd]
              refine ⟨fun hmm => ?_, ?_⟩
              · show (poolSet sp.pool r).length + sp.acquiring ≤ cfg.max
                rw [poolSet_of_mem _ _ h1]
                exact ih1 hmm
              · show sp.served ++ sp.requests = List.range sp.nextId
                exact ih2
          · have hd : (releaseFun sp r).1 = sp := by
              simp [releaseFun, h1]
            rw [hd]; exact ⟨ih1, ih2⟩
      | removeS r skipErr s2 heq =>
          subst heq
          refine ⟨fun hmm => ?_, ?_⟩
          · show (sp.pool.erase r).length + sp.acquiring ≤ cfg.max
            have hb := erase_length_le r sp.pool
            have hc := ih1 hmm
            omega
          · show sp.served ++ sp.requests = List.range sp.nextId
            exact ih2
      | destroyS r b s2 heq =>
          subst heq
          have hp := ensureMinFun_proj cfg
            { sp with available := sp.available.erase r, pool := sp.pool.erase r }
          refine ⟨fun hmm => ?_, ?_⟩
          · show (ensureMinFun cfg
                { sp with available := sp.available.erase r,
                          pool := sp.pool.erase r }).pool.length +
              (ensureMinFun cfg
                { sp with available := sp.available.erase r,
                          pool := sp.pool.erase r }).acquiring ≤ cfg.max
            refine ensureMinFun_size cfg _ hmm ?_
            show (sp.pool.erase r).length + sp.acquiring ≤ cfg.max
            have hb := erase_length_le r sp.pool
            have hc := ih1 hmm
            omega
          · show (ensureMinFun cfg
                { sp with available := sp.available.erase r,
                          pool := sp.pool.erase r }).served ++
              (ensureMinFun cfg
                { sp with available := sp.available.erase r,
                          pool := sp.pool.erase r }).requests =
              List.range (ensureMinFun cfg
                { sp with available := sp.available.erase r,
                          pool := sp.pool.erase r }).nextId
            rw [hp.2.2.1, hp.2.2.2.1, hp.2.2.2.2.1]
            exact ih2
      | allocCb t e r s2 hg heq =>
          subst heq
          cases t with
          | true =>
              have hacq := hg rfl
              cases e with
              | true =>
                  have h := onErrorFun_effect cfg
                    { sp with acquiring := sp.acquiring - 1 }
                  have h1 : (acquireCbFun cfg sp true true r).1.pool.length ≤
                      sp.pool.length := by
                    simpa [acquireCbFun] using h.1
                  have h2 : (acquireCbFun cfg sp true true r).1.acquiring =
                      sp.acquiring - 1 := by
                    simpa [acquireCbFun] using h.2.1
                  have h3 : (acquireCbFun cfg sp true true r).1.requests =
                      sp.requests := by
                    simpa [acquireCbFun] using h.2.2.1
                  have h4 : (acquireCbFun cfg sp true true r).1.served =
                      sp.served := by
                    simpa [acquireCbFun] using h.2.2.2.1
                  have h5 : (acquireCbFun cfg sp true true r).1.nextId =
                      sp.nextId := by
                    simpa [acquireCbFun] using h.2.2.2.2
                  refine ⟨fun hmm => ?_, ?_⟩
                  · have hc := ih1 hmm
                    omega
                  · rw [h3, h4, h5]; exact ih2
              | false =>
                  refine ⟨fun hmm => ?_, ?_⟩
                  · show (poolSet sp.pool r).length + (sp.acquiring - 1) ≤ cfg.max
                    have hb := poolSet_length_le sp.pool r
                    have hc := ih1 hmm
                    omega
                  · show sp.served ++ sp.requests = List.range sp.nextId
                    exact ih2
          | false =>
              cases e with
              | true =>
                  have h := onErrorFun_effect cfg sp
                  have h1 : (acquireCbFun cfg sp false true r).1.pool.length ≤
                      sp.pool.length := by
                    simpa [acquireCbFun] using h.1
                  have h2 : (acquireCbFun cfg sp false true r).1.acquiring =
                      sp.acquiring := by
                    simpa [acquireCbFun] using h.2.1
                  have h3 : (acquireCbFun cfg sp false true r).1.requests =
                      sp.requests := by
                    simpa [acquireCbFun] using h.2.2.1
                  have h4 : (acquireCbFun cfg sp false true r).1.served =
                      sp.served := by
                    simpa [acquireCbFun] using h.2.2.2.1
                  have h5 : (acquireCbFun cfg sp false true r).1.nextId =
                      sp.nextId := by
                    simpa [acquireCbFun] using h.2.2.2.2
                  refine ⟨fun hmm => ?_, ?_⟩
                  · have hc := ih1 hmm
                    omega
                  · rw [h3, h4, h5]; exact ih2
              | false =>
                  refine ⟨fun hmm => ?_, ?_⟩
                  · show (sp.pool.erase r).length + sp.acquiring ≤ cfg.max
                    have hb := erase_length_le r sp.pool
                    have hc := ih1 hmm
                    omega
                  · show sp.served ++ sp.requests = List.range sp.nextId
                    exact ih2
      | allocTimeout s2 hg heq =>
          subst heq
          have h := onErrorFun_effect cfg { sp with acquiring := sp.acquiring - 1 }
          have h1 : (timerFireFun cfg sp).1.pool.length ≤ sp.pool.length := by
            simpa [timerFireFun] using h.1
          have h2 : (timerFireFun cfg sp).1.acquiring = sp.acquiring - 1 := by
            simpa [timerFireFun] using h.2.1
          have h3 : (timerFireFun cfg sp).1.requests = sp.requests := by
            simpa [timerFireFun] using h.2.2.1
          have h4 : (timerFireFun cfg sp).1.served = sp.served := by
            simpa [timerFireFun] using h.2.2.2.1
          have h5 : (timerFireFun cfg sp).1.nextId = sp.nextId := by
            simpa [timerFireFun] using h.2.2.2.2
          refine ⟨fun hmm => ?_, ?_⟩
          · have hc := ih1 hmm
            omega
          · rw [h3, h4, h5]; exact ih2
      | endS s2 heq =>
          subst heq
          exact ⟨fun hmm => ih1 hmm, ih2⟩
      | destroyPoolS s2 heq =>
          subst heq
          have h := destroyPoolFun_effect cfg sp
          refine ⟨fun hmm => ?_, ?_⟩
          · have hc := ih1 hmm
            rw [h.1, h.2.1]
            simp only [List.length_nil]
            omega
          · rw [h.2.2.1, h.2.2.2.1, h.2.2.2.2.1]
            exact ih2

theorem rrRun_fulfilled (cs : List RRCall) (h : ∀ c ∈ cs, c ≠ RRCall.abort) :
    rrRun { fulfilled := true } cs =
      ({ fulfilled := true }, List.replicate cs.length REv.errEv) := by
  induction cs with
  | nil => rfl
  | cons c cs ih =>
      have hc := h c (by simp)
      have ih2 := ih (fun x hx => h x (List.mem_cons_of_mem _ hx))
      cases c with
      | resolve r => simp [rrRun, rrStep, ih2, List.replicate_succ]
      | reject => simp [rrRun, rrStep, ih2, List.replicate_succ]
      | abort => exact absurd rfl hc

theorem cbCount_append (l1 l2 : List REv) :
    cbCount (l1 ++ l2) = cbCount l1 + cbCount l2 := by
  induction l1 with
  | nil => simp [cbCount]
  | cons a t ih =>
      cases a with
      | cb e r => simp [cbCount, ih]; omega
      | errEv => simp [cbCount, ih]

theorem cbCount_replicate (n : Nat) :
    cbCount (List.replicate n REv.errEv) = 0 := by
  induction n with
  | zero => rfl
  | succ n ih => simpa [List.replicate_succ, cbCount] using ih

theorem attemptStep_eq (a : Attempt) (ev : AEv) :
    attemptStep a ev =
      if a.timerAlive then { timerAlive := false, decs := a.decs + 1 } else a := by
  cases ev <;> rfl

theorem foldl_attempt_inv (evs : List AEv) :
    ∀ a : Attempt, (a.timerAlive = true → a.decs = 0) → a.decs ≤ 1 →
      (evs.foldl attemptStep a).decs ≤ 1 := by
  induction evs with
  | nil => intro a _ h2; simpa using h2
  | cons e t ih =>
      intro a h1 h2
      rw [List.foldl_cons]
      by_cases ht : a.timerAlive = true
      · have hstep : attemptStep a e = { timerAlive := false, decs := a.decs + 1 } := by
          rw [attemptStep_eq, if_pos ht]
        rw [hstep]
        refine ih _ (fun hh => by simp at hh) ?_
        show a.decs + 1 ≤ 1
        have := h1 ht
        omega
      · have hstep : attemptStep a e = a := by
          rw [attemptStep_eq, if_neg ht]
        rw [hstep]
        exact ih a h1 h2

theorem runAttempt_decs_le (evs : List AEv) : (runAttempt evs).decs ≤ 1 :=
  foldl_attempt_inv evs { timerAlive := true, decs := 0 } (fun _ => rfl)
    (by decide)

theorem decsList_sum_le (atts : List (List AEv)) :
    (decsList atts).sum ≤ atts.length := by
  induction atts with
  | nil => simp [decsList]
  | cons a t ih =>
      have hle := runAttempt_decs_le a
      simp only [decsList, List.map_cons, List.sum_cons, List.length_cons] at ih ⊢
      omega

/-- The constructor always stores bounds with min ≤ max and max ≥ 1:
this is the fact that discharges the hypothesis of the size invariant
for every actually constructed pool. -/
theorem mkPool_min_le_max (o : Opts) (pc : PoolCfg)
    (h : mkPool o = Except.ok pc) : pc.min ≤ pc.max ∧ 1 ≤ pc.max := by
  unfold mkPool at h
  split at h
  · cases h
  split at h
  · cases h
  split at h
  · cases h
  split at h
  · cases h
  rcases hmx : o.max with _ | v <;> rcases hmn : o.min with _ | w <;>
      rw [hmx, hmn] at h <;>
      simp only [Except.ok.injEq] at h <;> subst h <;> constructor <;>
      dsimp only <;> (try split_ifs) <;> omega

/-- The demonstration run: two requests admitted, one resource
allocated, both requests served in order through the dispatcher. -/
theorem reachDemo : Reachable cfg0 sD7 := by
  have h0 : Reachable cfg0 init0 := Reachable.init
  have h1 : Reachable cfg0 { init0 with requests := [0], nextId := 1 } :=
    h0.step (Step.acquireOk _ _ rfl rfl (by decide) (by decide))
  have h2 : Reachable cfg0 sD2 :=
    h1.step (Step.acquireOk _ _ rfl rfl (by decide) (by decide))
  have h3 : Reachable cfg0 sD3 :=
    h2.step (Step.alloc _ _ (by decide) rfl (by decide) rfl (by decide))
  have h4 : Reachable cfg0 sD4 :=
    h3.step (Step.allocCb _ true false 0 _ (fun _ => by decide) (by decide))
  have h5 : Reachable cfg0 sD5 :=
    h4.step (Step.serve _ _ (by decide))
  have h6 : Reachable cfg0 sD6 :=
    h5.step (Step.releaseS _ 0 _ (by decide))
  exact h6.step (Step.serve _ _ (by decide))

/-- Claim C1: in every reachable pool state, the number of resources in
the pool map plus the in-flight allocation counter never exceeds max.
The hypothesis min ≤ max is exactly what the constructor establishes for
every pool it builds (mkPool_min_le_max).  The two allocation sources
respect the bound by construction: _maybeAllocateResource starts an
allocation only under the guard pool.count + acquiring < max
(Step.alloc), and _ensureMinimum raises pool.count + acquiring at most
to min (ensureMinFun). -/
theorem c1_pool_size_invariant (cfg : Config) (s : PoolState)
    (hmm : cfg.min ≤ cfg.max) (hr : Reachable cfg s) :
    s.pool.length + s.acquiring ≤ cfg.max :=
  (reach_good cfg s hr).1 hmm

theorem c1_pool_size_invariant_witness :
    sD7.pool.length + sD7.acquiring ≤ cfg0.max :=
  c1_pool_size_invariant cfg0 sD7 (by decide) reachDemo

/-- Claim C2: when the acquireTimeout timer has already fired (the latch
is null) and the factory then calls back successfully with resource r,
the callback routes r through remove(r, skipError = true): r is not
inserted into the pool map or the available list, no error event is
emitted, and the user teardown is invoked on r — the late resource is
never silently dropped. -/
theorem c2_late_resource_torn_down (cfg : Config) (s : PoolState) (r : Rsrc)
    (h1 : r ∉ s.pool) (h2 : r ∉ s.available) :
    acquireCbFun cfg s false false r = removeFun s r true ∧
    (acquireCbFun cfg s false false r).1.pool = s.pool ∧
    (acquireCbFun cfg s false false r).1.available = s.available ∧
    Ev.teardown r ∈ (acquireCbFun cfg s false false r).2 ∧
    Ev.errorEv ∉ (acquireCbFun cfg s false false r).2 := by
  refine ⟨rfl, ?_, ?_, ?_, ?_⟩
  · show s.pool.erase r = s.pool
    exact List.erase_of_not_mem h1
  · show s.available.erase r = s.available
    exact List.erase_of_not_mem h2
  · show Ev.teardown r ∈
      (if r ∈ s.pool ∨ true = true then [] else [Ev.errorEv]) ++ [Ev.teardown r]
    simp
  · show Ev.errorEv ∉
      (if r ∈ s.pool ∨ true = true then [] else [Ev.errorEv]) ++ [Ev.teardown r]
    simp

theorem c2_late_resource_torn_down_witness :
    acquireCbFun cfg0 sC2 false false 5 = removeFun sC2 5 true ∧
    (acquireCbFun cfg0 sC2 false false 5).1.pool = sC2.pool ∧
    (acquireCbFun cfg0 sC2 false false 5).1.available = sC2.available ∧
    Ev.teardown 5 ∈ (acquireCbFun cfg0 sC2 false false 5).2 ∧
    Ev.errorEv ∉ (acquireCbFun cfg0 sC2 false false 5).2 :=
  c2_late_resource_torn_down cfg0 sC2 5 (by decide) (by decide)

/-- Claim C3: on a fresh ResourceRequest, for every nonempty sequence of
resolve and reject calls, the stored callback is invoked exactly once,
by the first call, which also sets the fulfilled latch; every subsequent
resolve or reject emits the error event on the request instead of
invoking the callback a second time. -/
theorem c3_request_callback_once (c : RRCall) (rest : List RRCall)
    (hc : c ≠ RRCall.abort) (hrest : ∀ x ∈ rest, x ≠ RRCall.abort) :
    cbCount (rrRun { fulfilled := false } (c :: rest)).2 = 1 ∧
    (rrRun { fulfilled := false } (c :: rest)).2 =
      (rrStep { fulfilled := false } c).2 ++
        List.replicate rest.length REv.errEv ∧
    (rrRun { fulfilled := false } (c :: rest)).1.fulfilled = true := by
  have hrun := rrRun_fulfilled rest hrest
  cases c with
  | abort => exact absurd rfl hc
  | resolve r =>
      refine ⟨?_, ?_, ?_⟩ <;>
        simp [rrRun, rrStep, hrun, cbCount_append, cbCount, cbCount_replicate]
  | reject =>
      refine ⟨?_, ?_, ?_⟩ <;>
        simp [rrRun, rrStep, hrun, cbCount_append, cbCount, cbCount_replicate]

theorem c3_request_callback_once_witness :
    cbCount (rrRun { fulfilled := false } [RRCall.resolve 1, RRCall.reject]).2 = 1 ∧
    (rrRun { fulfilled := false } [RRCall.resolve 1, RRCall.reject]).2 =
      (rrStep { fulfilled := false } (RRCall.resolve 1)).2 ++
        List.replicate [RRCall.reject].length REv.errEv ∧
    (rrRun { fulfilled := false } [RRCall.resolve 1, RRCall.reject]).1.fulfilled
      = true :=
  c3_request_callback_once (RRCall.resolve 1) [RRCall.reject] (by decide)
    (by decide)

/-- Claim C4: requests are served in FIFO admission order.  acquire
appends the freshly numbered request at the tail (Step.acquireOk), the
dispatcher fulfills only the head of the queue (dispatchServeFun), and a
ping failure leaves the head queued (dispatchPingFailFun); hence in
every reachable state the served list is an initial segment of the
admission order, so a request admitted earlier (smaller id r1) sits at
an earlier fulfillment position (index r1 < index r2) than any later
request that has been fulfilled. -/
theorem c4_requests_fifo (cfg : Config) (s : PoolState)
    (hr : Reachable cfg s) (r1 r2 : Nat) (h12 : r1 < r2)
    (h2 : r2 ∈ s.served) :
    s.served[r1]? = some r1 ∧ s.served[r2]? = some r2 := by
  have hinv := (reach_good cfg s hr).2
  have htake := List.take_left s.served s.requests
  rw [hinv, List.take_range] at htake
  rw [← htake] at h2 ⊢
  have hr2 : r2 < min s.served.length s.nextId := List.mem_range.mp h2
  exact ⟨List.getElem?_range (by omega), List.getElem?_range hr2⟩

theorem c4_requests_fifo_witness :
    sD7.served[0]? = some 0 ∧ sD7.served[1]? = some 1 :=
  c4_requests_fifo cfg0 sD7 reachDemo 0 1 (by decide) (by decide)

/-- Claim C5, evaluated on the code: _destroyPool on a pool holding
resource 7 with request 3 pending sets destroyed and cancels the sync
interval timer, but its only observable effect is the user destroy on
resource 7 — the pending request stays queued and no request callback
of any kind is invoked, contradicting the claimed rejection of pending
requests with a Pool-was-destroyed error.  The test files in the
repository assert the claimed rejection, so the claim reflects intent
and the code under src is the slip. -/
theorem c5_destroy_pool_keeps_requests :
    (destroyPoolFun cfg0 sC5).1.destroyed = true ∧
    (destroyPoolFun cfg0 sC5).1.syncTimerOn = false ∧
    (destroyPoolFun cfg0 sC5).1.requests = [3] ∧
    (destroyPoolFun cfg0 sC5).1.served = [] ∧
    (destroyPoolFun cfg0 sC5).2 = [Ev.userDestroy 7] := by
  decide

/-- Claim C6, evaluated on the code: in the INITIAL state (live never
latched), the very first factory failure already destroys the pool —
the factory error callback (and likewise the acquireTimeout handler)
runs onError, which destroys the pool and emits the fatal error event
immediately.  part_000 has no backoff schedule and no bailAfter option;
the retry-until-bailAfter behavior the claim describes is asserted only
by the test files. -/
theorem c6_initial_failure_destroys :
    (acquireCbFun cfg0 sC6 true true 0).1.destroyed = true ∧
    Ev.errorEv ∈ (acquireCbFun cfg0 sC6 true true 0).2 ∧
    (timerFireFun cfg0 sC6).1.destroyed = true := by
  decide

/-- Claim C7, evaluated on the code: the constructor accepts min 3 with
max 2 without throwing, silently storing min 0 and max 2, and likewise
accepts negative min and max, silently storing the defaults 0 and 10.
part_000 validates only the function-valued options; every invalid
numeric option is replaced by its default instead of being rejected.
The must-be/cannot-be validation the claim describes is asserted only
by the test files. -/
theorem c7_invalid_options_accepted :
    mkPool opts7 = Except.ok pc7a ∧ mkPool opts7neg = Except.ok pc7b :=
  ⟨rfl, rfl⟩

/-- Claim C8, evaluated on the code: abort on an unfulfilled
ResourceRequest merely sets the fulfilled latch — it takes no reason
argument and invokes no callback at all, contradicting the claimed
rejection callback with an aborted message.  The second conjunct shows
the half of the claim that does hold: after abort, a later resolve
emits only the error event. -/
theorem c8_abort_does_not_call_back :
    rrStep { fulfilled := false } RRCall.abort = ({ fulfilled := true }, []) ∧
    (rrRun { fulfilled := false } [RRCall.abort, RRCall.resolve 5]).2 =
      [REv.errEv] := by
  decide

/-- Claim C9: Pool.destroy on a value that is not a member of the pool
emits no error event (unlike release and remove, which both emit the
error event on a non-member), still invokes the user destroy exactly
once (a throw surfacing only as a warn event), and leaves the pool map
and the available list unchanged. -/
theorem c9_destroy_nonmember (cfg : Config) (s : PoolState) (r : Rsrc)
    (b : Bool) (h1 : r ∉ s.pool) (h2 : r ∉ s.available) :
    (destroyFun cfg s r b).1.pool = s.pool ∧
    (destroyFun cfg s r b).1.available = s.available ∧
    (destroyFun cfg s r b).2 =
      Ev.userDestroy r :: (if b then [Ev.warn] else []) ∧
    Ev.errorEv ∈ (releaseFun s r).2 ∧
    Ev.errorEv ∈ (removeFun s r false).2 := by
  have hp := ensureMinFun_proj cfg
    { s with available := s.available.erase r, pool := s.pool.erase r }
  refine ⟨?_, ?_, rfl, ?_, ?_⟩
  · show (ensureMinFun cfg
        { s with available := s.available.erase r,
                 pool := s.pool.erase r }).pool = s.pool
    rw [hp.1]
    exact List.erase_of_not_mem h1
  · show (ensureMinFun cfg
        { s with available := s.available.erase r,
                 pool := s.pool.erase r }).available = s.available
    rw [hp.2.1]
    exact List.erase_of_not_mem h2
  · show Ev.errorEv ∈ (releaseFun s r).2
    simp [releaseFun, h1]
  · show Ev.errorEv ∈ (removeFun s r false).2
    simp [removeFun, h1]

theorem c9_destroy_nonmember_witness :
    (destroyFun cfg0 sC9 9 true).1.pool = sC9.pool ∧
    (destroyFun cfg0 sC9 9 true).1.available = sC9.available ∧
    (destroyFun cfg0 sC9 9 true).2 =
      Ev.userDestroy 9 :: (if true then [Ev.warn] else []) ∧
    Ev.errorEv ∈ (releaseFun sC9 9).2 ∧
    Ev.errorEv ∈ (removeFun sC9 9 false).2 :=
  c9_destroy_nonmember cfg0 sC9 9 true (by decide) (by decide)

/-- Claim C10: the acquiring counter never goes negative.  Every
_allocateResource call that passes the destroyed guard increments
acquiring exactly once (the one +1 per attempt in acquiringVal, line 327
of part_000), and each attempt decrements it at most once no matter how
the acquireTimeout timer races the factory callback: the timer branch
decrements and nulls the latch, and the factory branch decrements only
while the latch is still set, so a double callback or a callback after
the timeout never decrements twice. -/
theorem c10_acquiring_counter (atts : List (List AEv)) :
    0 ≤ acquiringVal atts ∧ ∀ evs : List AEv, (runAttempt evs).decs ≤ 1 := by
  constructor
  · have hsum := decsList_sum_le atts
    unfold acquiringVal
    omega
  · exact runAttempt_decs_le

end Pool2
